import Mathlib

/-!
Verification of the analyzer's extraction-and-classification pipeline.

The development shallowly embeds the two core source modules:
`src/ai-analyzer.js` (the `AIAnalyzer` class: `analyzeForAirdrops`,
`aiAirdropAnalysis`, `localAirdropAnalysis` and its helpers) and
`src/fetchPost.js` (`scrapeMultipleTweets`, `getMergedText`,
`scrapeTweets`).  Text is modelled as `List Char`; JavaScript
`String.prototype.includes` becomes an executable substring test;
effectful boundaries (the browser, the network, `JSON.parse`, clock
timestamps) are passed in as explicit oracles so every path of the
JavaScript control flow is a total Lean function.
-/

/-- Text is modelled as a list of characters. -/
abbrev Str := List Char

/-- Substring containment, the model of JavaScript `t.includes(k)`:
`includes t k` is `true` when `k` occurs contiguously inside `t`. -/
def includes : Str → Str → Bool
  | [], k => k.isPrefixOf []
  | c :: rest, k => k.isPrefixOf (c :: rest) || includes rest k

/-- ASCII lower-casing of a text, the model of `fullText.toLowerCase()`. -/
def lower (t : Str) : Str := t.map Char.toLower

/-- Model of JavaScript `String.prototype.trim`: drop whitespace from both
ends. -/
def jsTrim (s : Str) : Str :=
  ((s.dropWhile Char.isWhitespace).reverse.dropWhile Char.isWhitespace).reverse

/-- Characters matched by the regex class `[A-Za-z0-9_]` used in
`extractProjectNames`. -/
def isWordChar (c : Char) : Bool := c.isAlphanum || c = '_'

/-- The direct-airdrop indicator keywords of `localAirdropAnalysis`
(`ai-analyzer.js` lines 181-185). -/
def airdropKeywords : List Str :=
  (["airdrop", "drop", "token distribution", "free tokens", "claim",
    "whitelist", "early access", "early adopter", "genesis user",
    "retroactive", "snapshot", "eligibility", "allocation"]).map String.toList

/-- The action-oriented keywords of `localAirdropAnalysis`
(`ai-analyzer.js` lines 188-193). -/
def actionKeywords : List Str :=
  (["join", "participate", "follow", "retweet", "like", "share",
    "connect wallet", "mint", "stake", "provide liquidity", "swap",
    "bridge", "deposit", "claim", "register", "sign up", "invite",
    "complete tasks", "verify", "kyc", "discord", "telegram"]).map String.toList

def layer1Layer2Keywords : List Str :=
  (["layer 1", "layer 2", "l1", "l2", "blockchain", "mainnet", "scaling",
    "rollup", "sidechain"]).map String.toList

def defiKeywords : List Str :=
  (["defi", "dex", "swap", "liquidity", "yield", "farming", "staking",
    "lending", "protocol"]).map String.toList

def nftKeywords : List Str :=
  (["nft", "mint", "collection", "pfp", "avatar", "opensea", "metadata",
    "rare"]).map String.toList

def aiMlKeywords : List Str :=
  (["ai", "artificial intelligence", "machine learning", "ml", "neural",
    "gpt", "llm", "agent"]).map String.toList

def gamingKeywords : List Str :=
  (["gaming", "play-to-earn", "p2e", "metaverse", "gamefi", "rpg",
    "mmorpg"]).map String.toList

def testnetKeywords : List Str :=
  (["testnet", "alpha", "beta", "sandbox", "devnet", "preview",
    "test network"]).map String.toList

def questKeywords : List Str :=
  (["quest", "task", "mission", "challenge", "bounty", "galxe", "zealy",
    "crew3"]).map String.toList

def fundraisingKeywords : List Str :=
  (["funding", "raise", "seed", "series a", "ico", "ido", "ieo", "presale",
    "round"]).map String.toList

def pointsKeywords : List Str :=
  (["points", "farming", "rewards", "earn", "accumulate", "multiplier",
    "boost"]).map String.toList

def crosschainKeywords : List Str :=
  (["bridge", "cross-chain", "multichain", "interoperability", "wrapped",
    "portal"]).map String.toList

def privacyKeywords : List Str :=
  (["privacy", "anonymous", "zero-knowledge", "zk", "private",
    "encryption"]).map String.toList

def infrastructureKeywords : List Str :=
  (["oracle", "rpc", "api", "indexer", "infrastructure", "node",
    "validator"]).map String.toList

/-- The `categoryKeywords` object of `localAirdropAnalysis`
(`ai-analyzer.js` lines 165-178), in insertion order, which is the order
`Object.entries` iterates it. -/
def categoryList : List (Str × List Str) :=
  [("layer1_layer2".toList, layer1Layer2Keywords),
   ("defi".toList, defiKeywords),
   ("nft".toList, nftKeywords),
   ("ai_ml".toList, aiMlKeywords),
   ("gaming".toList, gamingKeywords),
   ("testnet".toList, testnetKeywords),
   ("quest".toList, questKeywords),
   ("fundraising".toList, fundraisingKeywords),
   ("points".toList, pointsKeywords),
   ("crosschain".toList, crosschainKeywords),
   ("privacy".toList, privacyKeywords),
   ("infrastructure".toList, infrastructureKeywords)]

/-- Model of `category.replace('_', ' ')`: JavaScript `replace` with a
string pattern replaces only the first occurrence. -/
def replaceFirstUnderscore : Str → Str
  | [] => []
  | c :: rest => if c = '_' then ' ' :: rest else c :: replaceFirstUnderscore rest

/-- Model of `.replace(/\b\w/g, l => l.toUpperCase())`: upper-case every
word character that starts a word.  The boolean argument records whether
the previous character was a word character. -/
def upperWordStarts : Bool → Str → Str
  | _, [] => []
  | prevWord, c :: rest =>
    (if isWordChar c && !prevWord then c.toUpper else c) ::
      upperWordStarts (isWordChar c) rest

/-- The category display formatting of `ai-analyzer.js` line 209. -/
def formatCategory (name : Str) : Str :=
  upperWordStarts false (replaceFirstUnderscore name)

/-- The fixed category-to-opportunity-type lookup of `ai-analyzer.js`
lines 212-218. -/
def typeFor (category : Str) : Str :=
  if category = "testnet".toList then "TestNet Rewards".toList
  else if category = "nft".toList then "NFT Mint".toList
  else if category = "defi".toList then "DeFi Farming".toList
  else if category = "quest".toList then "Quest Program".toList
  else if category = "points".toList then "Points Farming".toList
  else if category = "fundraising".toList then "Token Launch".toList
  else "Early Access".toList

/-- Number of keywords of `kws` found in the (lower-cased) text, i.e.
`keywords.filter(keyword => text.includes(keyword)).length`. -/
def matchCount (text : Str) (kws : List Str) : Nat :=
  (kws.filter (fun k => includes text k)).length

/-- State threaded through the category loop of `ai-analyzer.js`
lines 205-220: `potential`, `detectedCategory`, `opportunityType`. -/
structure CatState where
  potential : Nat
  detectedCategory : Str
  opportunityType : Str
deriving DecidableEq

/-- One iteration of the category loop (`ai-analyzer.js` lines 205-220). -/
def catStep (text : Str) (acc : CatState) (ck : Str × List Str) : CatState :=
  let ms := ck.2.filter (fun k => includes text k)
  if 0 < ms.length then
    { potential := acc.potential + ms.length * 2,
      detectedCategory := formatCategory ck.1,
      opportunityType := typeFor ck.1 }
  else acc

/-- The whole category loop, started from the potential accumulated so far
and the initial `detectedCategory = 'General'`, `opportunityType = ''`. -/
def runCategories (text : Str) (initPot : Nat) : CatState :=
  categoryList.foldl (catStep text) ⟨initPot, "General".toList, []⟩

/-- The airdrop-keyword matches of the lower-cased text
(`ai-analyzer.js` line 201). -/
def airdropMatchesOf (text : Str) : List Str :=
  airdropKeywords.filter (fun k => includes text k)

/-- The action-keyword matches of the lower-cased text
(`ai-analyzer.js` line 223). -/
def actionMatchesOf (text : Str) : List Str :=
  actionKeywords.filter (fun k => includes text k)

/-- The score of `localAirdropAnalysis` before the `Math.min(10, ...)`
clamp, as a function of the lower-cased text: direct-airdrop matches
weigh 3, category matches weigh 2, action matches weigh 1. -/
def preclampPotential (text : Str) : Nat :=
  (runCategories text ((airdropMatchesOf text).length * 3)).potential +
    (actionMatchesOf text).length

/-- The clamped score (`ai-analyzer.js` line 227). -/
def clampedPotential (text : Str) : Nat := min 10 (preclampPotential text)

/-- Matches of the global regex `/@[A-Za-z0-9_]+/g` (for `sigil = '@'`) or
`/#[A-Za-z0-9_]+/g` (for `sigil = '#'`) on a text, each match including its
leading sigil, in document order.  A match is a sigil followed by a
non-empty maximal run of word characters; since such a run never contains
a sigil, scanning every position finds exactly the matches the JavaScript
regex engine finds. -/
def findMatches (sigil : Char) : Str → List Str
  | [] => []
  | c :: rest =>
    let run := rest.takeWhile isWordChar
    if c = sigil && !run.isEmpty then (c :: run) :: findMatches sigil rest
    else findMatches sigil rest

/-- The `extractProjectNames` method (`ai-analyzer.js` lines 272-281): all
`@`-mentions followed by all `#`-hashtags of the original-case text, sigil
stripped, filtered to length greater than 2, first five kept. -/
def extractProjectNames (text : Str) : List Str :=
  let mentions := findMatches '@' text
  let hashtags := findMatches '#' text
  ((((mentions ++ hashtags).map (fun item => item.drop 1)).filter
      (fun item => 2 < item.length)).take 5)

/-- The `assessRiskLevel` method (`ai-analyzer.js` lines 283-297);
`text` is the lower-cased corpus. -/
def assessRiskLevel (text : Str) (airdropMatches projects : List Str) : Str :=
  if includes text ("guaranteed".toList) || includes text ("100%".toList) ||
      includes text ("quick rich".toList) || includes text ("pump".toList) then
    "high".toList
  else if decide (0 < projects.length) &&
      (includes text ("testnet".toList) || includes text ("beta".toList) ||
        includes text ("official".toList) ||
        decide (0 < airdropMatches.length)) then
    "low".toList
  else "medium".toList

/-- The `estimateTimeline` method (`ai-analyzer.js` lines 299-316);
`text` is the lower-cased corpus. -/
def estimateTimeline (text : Str) (airdropMatches actionMatches : List Str) :
    Str :=
  if includes text ("now".toList) || includes text ("today".toList) ||
      includes text ("live".toList) then "এখনই".toList
  else if includes text ("week".toList) || includes text ("7 days".toList) then
    "১ সপ্তাহ".toList
  else if includes text ("month".toList) || includes text ("30 days".toList) then
    "১ মাস".toList
  else if includes text ("quarter".toList) || includes text ("q1".toList) ||
      includes text ("q2".toList) then "৩ মাস".toList
  else if decide (0 < airdropMatches.length) ||
      decide (2 < actionMatches.length) then "১ মাস".toList
  else "অনিশ্চিত".toList

/-- The `generateAdditionalContext` method (`ai-analyzer.js` lines
318-329); `category` is the formatted detected category. -/
def generateAdditionalContext (category riskLevel : Str) (potential : Nat) :
    Str :=
  if riskLevel = "high".toList then
    "সতর্কতা: উচ্চ ঝুঁকিপূর্ণ, যাচাই করে এগিয়ে চলুন".toList
  else if 8 ≤ potential then
    "উচ্চ সম্ভাবনাময় সুযোগ, দ্রুত পদক্ষেপ নিন".toList
  else if includes category ("TestNet".toList) ||
      includes category ("Quest".toList) then
    "সক্রিয় অংশগ্রহণ প্রয়োজন, নিয়মিত ফলো আপ করুন".toList
  else "নিয়মিত আপডেটের জন্য প্রজেক্ট ফলো করুন".toList

/-- The `createEnhancedKeyPoints` method (`ai-analyzer.js` lines 331-373),
with the `points.push` calls rendered as list concatenation in the same
order. -/
def createEnhancedKeyPoints (airdropMatches actionMatches : List Str)
    (category : Str) : List Str :=
  let points :=
    (if includes category ("Layer".toList) then
      ["নতুন ব্লকচেইন নেটওয়ার্ক লঞ্চ হচ্ছে".toList] else []) ++
    (if includes category ("DeFi".toList) then
      ["DeFi প্রোটোকলে লিকুইডিটি প্রদানের সুযোগ".toList] else []) ++
    (if includes category ("NFT".toList) then
      ["NFT মিন্টিং বা কালেকশনের সুযোগ".toList] else []) ++
    (if includes category ("AI".toList) then
      ["AI ভিত্তিক প্রজেক্টে আর্লি এক্সেস".toList] else []) ++
    (if includes category ("Gaming".toList) then
      ["গেমিং এবং Play-to-Earn সুযোগ".toList] else []) ++
    (if airdropMatches.contains ("testnet".toList) then
      ["টেস্টনেট এক্টিভিটির সুযোগ রয়েছে".toList] else []) ++
    (if airdropMatches.contains ("airdrop".toList) then
      ["এয়ারড্রপের সরাসরি উল্লেখ পাওয়া গেছে".toList] else []) ++
    (if airdropMatches.contains ("early access".toList) then
      ["আর্লি এক্সেস প্রোগ্রাম উপলব্ধ".toList] else []) ++
    (if actionMatches.contains ("farming".toList) ||
        actionMatches.contains ("stake".toList) then
      ["ফার্মিং বা স্টেকিং রিওয়ার্ড".toList] else []) ++
    (if actionMatches.contains ("quest".toList) ||
        actionMatches.contains ("task".toList) then
      ["কোয়েস্ট বা টাস্ক কমপ্লিট করার সুযোগ".toList] else [])
  if points.isEmpty then ["সাধারণ ক্রিপ্টো তথ্য ও আপডেট".toList] else points

/-- The `createDetailedActionSteps` method (`ai-analyzer.js` lines
375-421). -/
def createDetailedActionSteps (hasOpportunity : Bool)
    (actionMatches : List Str) (category : Str) : List Str :=
  if !hasOpportunity then
    ["আপাতত কোনো নির্দিষ্ট কর্মপ্রণালী প্রয়োজন নেই".toList]
  else
    let steps :=
      (if includes category ("TestNet".toList) then
        ["টেস্টনেট এ একাউন্ট তৈরি করুন এবং ট্রানজেকশন করুন".toList] else []) ++
      (if includes category ("NFT".toList) then
        ["হোয়াইটলিস্টের জন্য রেজিস্ট্রেশন করুন".toList] else []) ++
      (if includes category ("DeFi".toList) then
        ["প্রোটোকলে লিকুইডিটি প্রদান করুন".toList] else []) ++
      (if includes category ("Quest".toList) then
        ["সকল কোয়েস্ট টাস্ক সম্পূর্ণ করুন".toList] else []) ++
      (if actionMatches.contains ("follow".toList) then
        ["সোশ্যাল মিডিয়া চ্যানেল ফলো করুন".toList] else []) ++
      (if actionMatches.contains ("connect wallet".toList) then
        ["ওয়ালেট কানেক্ট করুন এবং ভেরিফাই করুন".toList] else []) ++
      (if actionMatches.contains ("discord".toList) ||
          actionMatches.contains ("telegram".toList) then
        ["কমিউনিটি চ্যানেলে যোগ দিন এবং সক্রিয় থাকুন".toList] else []) ++
      (if actionMatches.contains ("invite".toList) ||
          actionMatches.contains ("referral".toList) then
        ["রেফারেল প্রোগ্রামে অংশগ্রহণ করুন".toList] else [])
    let steps :=
      if steps.isEmpty then
        ["প্রজেক্টের অফিসিয়াল চ্যানেল চেক করুন".toList,
         "কমিউনিটিতে সক্রিয় থাকুন".toList,
         "আপডেটের জন্য নিয়মিত ফলো করুন".toList]
      else steps
    steps ++ ["প্রজেক্টের রোডম্যাপ এবং টোকেনোমিক্স যাচাই করুন".toList]

/-- The canonical analysis result schema: the thirteen fields produced by
`localAirdropAnalysis`, `createEmptyAnalysis` and the prompt contract. -/
structure AnalysisResult where
  content_summary_bangla : Str
  project_category : Str
  airdrop_potential : Nat
  has_airdrop_opportunity : Bool
  summary_bangla : Str
  key_points_bangla : List Str
  action_steps_bangla : List Str
  opportunity_type : Str
  projects_mentioned : List Str
  risk_level : Str
  confidence_level : Str
  estimated_timeline : Str
  additional_context : Str
deriving DecidableEq

/-- The `localAirdropAnalysis` method (`ai-analyzer.js` lines 161-270). -/
def localAirdropAnalysis (fullText : Str) : AnalysisResult :=
  let text := lower fullText
  let airdropMatches := airdropMatchesOf text
  let st := runCategories text (airdropMatches.length * 3)
  let actionMatches := actionMatchesOf text
  let potential := clampedPotential text
  let projects := extractProjectNames fullText
  let riskLevel := assessRiskLevel text airdropMatches projects
  let hasOpportunity := decide (4 ≤ potential)
  { content_summary_bangla :=
      if hasOpportunity then
        "এই পোস্টে ".toList ++ st.detectedCategory ++
          " সম্পর্কিত একটি প্রজেক্টের তথ্য রয়েছে".toList
      else "এই পোস্টে সাধারণ ক্রিপ্টো/ওয়েব৩ তথ্য রয়েছে".toList,
    project_category := st.detectedCategory,
    airdrop_potential := potential,
    has_airdrop_opportunity := hasOpportunity,
    summary_bangla :=
      if hasOpportunity then
        "এই প্রজেক্টে এয়ারড্রপের ".toList ++
          (if 7 ≤ potential then "উচ্চ".toList else "মাঝারি".toList) ++
          " সম্ভাবনা রয়েছে। ".toList ++
          (if 0 < airdropMatches.length then
            "সরাসরি এয়ারড্রপের উল্লেখ পাওয়া গেছে।".toList
          else
            "আর্লি পার্টিসিপেশনের মাধ্যমে রিওয়ার্ড পাওয়ার সুযোগ আছে।".toList)
      else
        "এই পোস্টে এয়ারড্রপের সরাসরি সম্ভাবনা কম। তবে ভবিষ্যতে সুযোগ তৈরি হতে পারে।".toList,
    key_points_bangla :=
      createEnhancedKeyPoints airdropMatches actionMatches st.detectedCategory,
    action_steps_bangla :=
      createDetailedActionSteps hasOpportunity actionMatches
        st.detectedCategory,
    opportunity_type :=
      if st.opportunityType.isEmpty then "General Information".toList
      else st.opportunityType,
    projects_mentioned := projects,
    risk_level := riskLevel,
    confidence_level :=
      if 7 ≤ potential then "high".toList
      else if 4 ≤ potential then "medium".toList
      else "low".toList,
    estimated_timeline := estimateTimeline text airdropMatches actionMatches,
    additional_context :=
      generateAdditionalContext st.detectedCategory riskLevel potential }

/-- The `createEmptyAnalysis` method (`ai-analyzer.js` lines 423-439). -/
def createEmptyAnalysis : AnalysisResult :=
  { content_summary_bangla :=
      "কোনো কন্টেন্ট বিশ্লেষণ করার জন্য পাওয়া যায়নি।".toList,
    project_category := "Unknown".toList,
    airdrop_potential := 0,
    has_airdrop_opportunity := false,
    summary_bangla := "কোনো কন্টেন্ট বিশ্লেষণ করার জন্য পাওয়া যায়নি।".toList,
    key_points_bangla := ["কন্টেন্ট খালি বা অনুপস্থিত".toList],
    action_steps_bangla := ["বৈধ টুইটার URL প্রদান করুন".toList],
    opportunity_type := "None".toList,
    projects_mentioned := [],
    risk_level := "none".toList,
    confidence_level := "none".toList,
    estimated_timeline := "অনিশ্চিত".toList,
    additional_context := "কোনো তথ্য নেই".toList }

/-- JSON values, the model of what `JSON.parse` can deliver to the remote
strategy. -/
inductive JSValue where
  | str (s : Str)
  | num (n : Int)
  | bool (b : Bool)
  | jnull
  | arr (elems : List JSValue)
  | obj (fields : List (Str × JSValue))

/-- The key list of a JSON object, `none` on any non-object value. -/
def jsKeys : JSValue → Option (List Str)
  | .obj fields => some (fields.map Prod.fst)
  | _ => none

/-- The canonical schema's thirteen keys, in the order every strategy of
`ai-analyzer.js` produces them. -/
def canonicalKeys : List Str :=
  (["content_summary_bangla", "project_category", "airdrop_potential",
    "has_airdrop_opportunity", "summary_bangla", "key_points_bangla",
    "action_steps_bangla", "opportunity_type", "projects_mentioned",
    "risk_level", "confidence_level", "estimated_timeline",
    "additional_context"]).map String.toList

/-- Render an analysis result as the JSON object the JavaScript methods
literally return. -/
def analysisToJS (a : AnalysisResult) : JSValue :=
  .obj
    [("content_summary_bangla".toList, .str a.content_summary_bangla),
     ("project_category".toList, .str a.project_category),
     ("airdrop_potential".toList, .num a.airdrop_potential),
     ("has_airdrop_opportunity".toList, .bool a.has_airdrop_opportunity),
     ("summary_bangla".toList, .str a.summary_bangla),
     ("key_points_bangla".toList, .arr (a.key_points_bangla.map .str)),
     ("action_steps_bangla".toList, .arr (a.action_steps_bangla.map .str)),
     ("opportunity_type".toList, .str a.opportunity_type),
     ("projects_mentioned".toList, .arr (a.projects_mentioned.map .str)),
     ("risk_level".toList, .str a.risk_level),
     ("confidence_level".toList, .str a.confidence_level),
     ("estimated_timeline".toList, .str a.estimated_timeline),
     ("additional_context".toList, .str a.additional_context)]

/-- Outcome of one attempt at the remote inference call, seen from
`analyzeForAirdrops`.  `fault` is any thrown error (network failure,
non-2xx status, the 30000 ms axios timeout, or a response object without
the expected `choices[0].message.content` shape); `responded parsed`
means a textual body arrived and `JSON.parse` of its trimmed content
yielded `parsed` (`none` when `JSON.parse` threw). -/
inductive RemoteOutcome where
  | fault
  | responded (parsed : Option JSValue)

/-- The `aiAirdropAnalysis` method (`ai-analyzer.js` lines 42-81):
`JSON.parse` failure is caught inside the method and answered with the
local analysis; any parsed value is returned as-is; every other error
propagates to the caller. -/
def aiAirdropAnalysis (fullText : Str) : RemoteOutcome → Except Unit JSValue
  | .fault => .error ()
  | .responded none => .ok (analysisToJS (localAirdropAnalysis fullText))
  | .responded (some v) => .ok v

/-- The `analyzeForAirdrops` method (`ai-analyzer.js` lines 23-40):
empty-or-whitespace input short-circuits to the empty analysis; with a
configured API key the remote strategy is attempted and any error it
throws is caught and answered with the local analysis; without a key the
local analysis runs directly. -/
def analyzeForAirdrops (hasApiKey : Bool) (remote : RemoteOutcome)
    (fullText : Str) : JSValue :=
  if (jsTrim fullText).length = 0 then analysisToJS createEmptyAnalysis
  else if hasApiKey then
    match aiAirdropAnalysis fullText remote with
    | .ok v => v
    | .error _ => analysisToJS (localAirdropAnalysis fullText)
  else analysisToJS (localAirdropAnalysis fullText)

/-- Tweet content extracted by `scrapeSingleTweet` (`fetchPost.js` lines
217-226). -/
structure TweetBody where
  text : Str
  timestamp : Str
deriving DecidableEq

/-- Author block extracted by `scrapeSingleTweet` (`fetchPost.js` lines
205-215). -/
structure UserInfo where
  displayName : Str
  username : Str
deriving DecidableEq

/-- One entry of the array built by `scrapeMultipleTweets`: either the
object of `fetchPost.js` lines 228-233 (fields `url`, `user`, `tweet`,
`scrapedAt`) or the error object of lines 256-260 (fields `url`, `error`,
`scrapedAt`).  Absent JavaScript fields are `none`. -/
structure Post where
  url : Str
  user : Option UserInfo
  tweet : Option TweetBody
  error : Option Str
  scrapedAt : Str
deriving DecidableEq

/-- Outcome of `scrapeSingleTweet` for one URL: extracted author and tweet
plus the `scrapedAt` instant, or a thrown error message plus the instant
recorded in the catch block. -/
inductive FetchOutcome where
  | ok (user : UserInfo) (tweet : TweetBody) (scrapedAt : Str)
  | fail (msg : Str) (scrapedAt : Str)

/-- Entry that the loop body of `scrapeMultipleTweets` (`fetchPost.js`
lines 250-262) pushes for one URL. -/
def mkPost (url : Str) : FetchOutcome → Post
  | .ok u t a => { url := url, user := some u, tweet := some t,
                   error := none, scrapedAt := a }
  | .fail m a => { url := url, user := none, tweet := none,
                   error := some m, scrapedAt := a }

/-- The `scrapeMultipleTweets` function (`fetchPost.js` lines 243-265),
with the per-URL extraction behaviour supplied as the oracle `fetch`.  An
empty URL array throws; otherwise every URL yields exactly one entry, in
order. -/
def scrapeMultipleTweets (fetch : Str → FetchOutcome) (urls : List Str) :
    Except Str (List Post) :=
  if urls.isEmpty then .error ("URLs must be a non-empty array".toList)
  else .ok (urls.map (fun u => mkPost u (fetch u)))

/-- The filter condition `post.tweet && post.tweet.text` of
`getMergedText`. -/
def usableText (p : Post) : Bool :=
  match p.tweet with
  | none => false
  | some tb => !tb.text.isEmpty

/-- The `getMergedText` function (`fetchPost.js` lines 272-277). -/
def getMergedText (posts : List Post) : Str :=
  List.intercalate ("\n\n".toList)
    ((posts.filter usableText).map (fun p => (p.tweet.map TweetBody.text).getD []))

/-- The object returned by `scrapeTweets`, with one optional slot per
JavaScript key that any exit path can carry. -/
structure ScrapeEnvelope where
  fullText : Option Str
  posts : Option (List Post)
  mergedText : Option Str
  success : Bool
  totalPosts : Option Nat
  analysis : Option JSValue
  error : Option Str

/-- The `scrapeTweets` function (`fetchPost.js` lines 295-323).
`browserInit` is the outcome of `initializeBrowser`; a throw there, or the
throw of `scrapeMultipleTweets` on an empty URL array, reaches the catch
block, which returns `{posts: [], mergedText: '', success: false, error}`.
The success path returns `{fullText, success: true, totalPosts,
analysis}`. -/
def scrapeTweets (browserInit : Except Str Unit)
    (fetch : Str → FetchOutcome) (hasApiKey : Bool) (remote : RemoteOutcome)
    (urls : List Str) : ScrapeEnvelope :=
  match browserInit with
  | .error e =>
    { fullText := none, posts := some [], mergedText := some [],
      success := false, totalPosts := none, analysis := none,
      error := some e }
  | .ok _ =>
    match scrapeMultipleTweets fetch urls with
    | .error e =>
      { fullText := none, posts := some [], mergedText := some [],
        success := false, totalPosts := none, analysis := none,
        error := some e }
    | .ok posts =>
      let fullText := getMergedText posts
      let plainText := jsTrim fullText
      let analysisResult := analyzeForAirdrops hasApiKey remote plainText
      { fullText := some fullText, posts := none, mergedText := none,
        success := true, totalPosts := some posts.length,
        analysis := some analysisResult, error := none }

/-- Single left-to-right scan collecting the `@`-mention matches and the
`#`-hashtag matches of a text in one pass, each group in document order.
Used to characterise `extractProjectNames` without running two separate
regex passes. -/
def scanEntities : Str → List Str × List Str
  | [] => ([], [])
  | c :: rest =>
    let run := rest.takeWhile isWordChar
    let p := scanEntities rest
    if c = '@' && !run.isEmpty then ((c :: run) :: p.1, p.2)
    else if c = '#' && !run.isEmpty then (p.1, (c :: run) :: p.2)
    else p

/-- Following the spec's words for `mentionedEntities`: all `@handle` and
`#tag` tokens of the original-case corpus in one document-order stream
(mentions and hashtags interleaved by position). -/
def docOrderTokens : Str → List Str
  | [] => []
  | c :: rest =>
    let run := rest.takeWhile isWordChar
    if (c = '@' || c = '#') && !run.isEmpty then
      (c :: run) :: docOrderTokens rest
    else docOrderTokens rest

/-- Following the spec's words for claim C7: sigil stripped, filtered to
length greater than 2, truncated to the first 5 matches in document
order. -/
def entitiesDocOrder (text : Str) : List Str :=
  (((docOrderTokens text).map (fun item => item.drop 1)).filter
     (fun item => 2 < item.length)).take 5

/-- Following the spec's words for the merge operation (claim C6): drop
posts whose `error` is set or whose text is empty, join the remaining
texts with a blank line, and trim leading and trailing whitespace. -/
def mergedTextSpec (posts : List Post) : Str :=
  jsTrim (List.intercalate ("\n\n".toList)
    ((posts.filter (fun p => p.error.isNone && usableText p)).map
      (fun p => (p.tweet.map TweetBody.text).getD [])))

/-- Following the spec's words for claim C9: the last category in
iteration order having at least one keyword match in the lower-cased
corpus. -/
def selectedCategorySpec (fullText : Str) : Option (Str × List Str) :=
  categoryList.reverse.find?
    (fun ck => decide (0 < matchCount (lower fullText) ck.2))

/-- Extraction oracle used by concrete witnesses: URL `b` fails with the
message `boom`, every other URL extracts a tweet. -/
def fetchW : Str → FetchOutcome := fun u =>
  if u = "b".toList then .fail ("boom".toList) ("t1".toList)
  else .ok ⟨"dn".toList, "un".toList⟩ ⟨"hello".toList, "ts".toList⟩
    ("t2".toList)

/-- Every keyword that can contribute to the score: the direct-airdrop
indicators, the action keywords, and all twelve category keyword sets. -/
def allScoredKeywords : List Str :=
  airdropKeywords ++ actionKeywords ++ (categoryList.map Prod.snd).flatten

/-! General lemmas about the text and list primitives of the model. -/

theorem includes_iff (t k : Str) : includes t k = true ↔ k <:+: t := by
  induction t with
  | nil => simp [includes, List.isPrefixOf_iff_prefix]
  | cons c rest ih =>
    simp [includes, List.isPrefixOf_iff_prefix, ih, List.infix_cons_iff]

theorem infix_of_append_right {k t : Str} (u : Str) (h : k <:+: t) :
    k <:+: t ++ u := by
  obtain ⟨s, e, he⟩ := h
  exact ⟨s, e ++ u, by rw [← he]; simp⟩

theorem infix_of_append_left {k u : Str} (t : Str) (h : k <:+: u) :
    k <:+: t ++ u := by
  obtain ⟨s, e, he⟩ := h
  exact ⟨t ++ s, e, by rw [← he]; simp⟩

theorem infix_map_lower {k t : Str} (h : k <:+: t) : lower k <:+: lower t := by
  obtain ⟨s, e, he⟩ := h
  exact ⟨lower s, lower e, by rw [← he]; simp [lower]⟩

theorem includes_of_append_right {t k : Str} (u : Str)
    (h : includes t k = true) : includes (t ++ u) k = true := by
  rw [includes_iff] at h ⊢
  exact infix_of_append_right u h

theorem lower_append (t u : Str) : lower (t ++ u) = lower t ++ lower u := by
  simp [lower]

theorem length_filter_le_of_imp {α : Type} (p q : α → Bool) :
    ∀ l : List α, (∀ x ∈ l, p x = true → q x = true) →
      (l.filter p).length ≤ (l.filter q).length := by
  intro l
  induction l with
  | nil => intro _; simp
  | cons a l ih =>
    intro h
    have ht := ih (fun x hx => h x (List.mem_cons_of_mem a hx))
    by_cases hpa : p a = true
    · have hqa := h a (List.mem_cons_self a l) hpa
      simp [List.filter_cons, hpa, hqa]
      omega
    · rcases hq : q a with _ | _ <;>
        simp_all [List.filter_cons] <;> omega

theorem length_filter_succ_le {α : Type} (p q : α → Bool) :
    ∀ l : List α, (∀ x ∈ l, p x = true → q x = true) →
      ∀ a ∈ l, p a = false → q a = true →
      (l.filter p).length + 1 ≤ (l.filter q).length := by
  intro l
  induction l with
  | nil => intro _ a ha; simp at ha
  | cons b l ih =>
    intro h a ha hpa hqa
    have hmono := fun x hx => h x (List.mem_cons_of_mem b hx)
    rcases List.mem_cons.mp ha with rfl | hmem
    · have ht := length_filter_le_of_imp p q l hmono
      simp [List.filter_cons, hpa, hqa]
      omega
    · have ht := ih hmono a hmem hpa hqa
      by_cases hpb : p b = true
      · have hqb := h b (List.mem_cons_self b l) hpb
        simp [List.filter_cons, hpb, hqb]
        omega
      · rcases hqb : q b with _ | _ <;>
          simp_all [List.filter_cons] <;> omega

theorem one_le_length_filter {α : Type} (p : α → Bool) (l : List α) (a : α)
    (ha : a ∈ l) (hpa : p a = true) : 1 ≤ (l.filter p).length := by
  have : a ∈ l.filter p := List.mem_filter.mpr ⟨ha, hpa⟩
  have := List.ne_nil_of_mem this
  have := List.length_pos.mpr this
  omega

/-! Lemmas about the category loop. -/

theorem foldl_catStep_potential (text : Str) :
    ∀ (l : List (Str × List Str)) (acc : CatState),
      (l.foldl (catStep text) acc).potential =
        acc.potential + 2 * (l.map (fun ck => matchCount text ck.2)).sum := by
  intro l
  induction l with
  | nil => intro acc; simp
  | cons ck l ih =>
    intro acc
    have hstep : (catStep text acc ck).potential =
        acc.potential + 2 * matchCount text ck.2 := by
      simp only [catStep, matchCount]
      split
      · simp; ring
      · rename_i h
        have h0 : (ck.2.filter (fun k => includes text k)).length = 0 := by
          omega
        simp [h0]
    rw [List.foldl_cons, ih, hstep, List.map_cons, List.sum_cons]
    ring

theorem foldl_catStep_selection (text : Str) :
    ∀ (l : List (Str × List Str)) (acc : CatState),
      (l.foldl (catStep text) acc).detectedCategory =
        (match l.reverse.find?
            (fun ck => decide (0 < matchCount text ck.2)) with
         | none => acc.detectedCategory
         | some ck => formatCategory ck.1) ∧
      (l.foldl (catStep text) acc).opportunityType =
        (match l.reverse.find?
            (fun ck => decide (0 < matchCount text ck.2)) with
         | none => acc.opportunityType
         | some ck => typeFor ck.1) := by
  intro l
  induction l using List.reverseRecOn with
  | nil => intro acc; simp
  | append_singleton l ck ih =>
    intro acc
    rw [List.foldl_append, List.foldl_cons, List.foldl_nil,
      List.reverse_append, List.reverse_singleton, List.singleton_append]
    by_cases h : 0 < matchCount text ck.2
    · rw [List.find?_cons_of_pos _ (by simpa using h)]
      constructor <;>
        simp [catStep, matchCount] at h ⊢ <;> simp [h]
    · rw [List.find?_cons_of_neg _ (by simpa using h)]
      have hstep : catStep text (l.foldl (catStep text) acc) ck =
          l.foldl (catStep text) acc := by
        simp only [catStep, matchCount] at h ⊢
        simp [h]
      rw [hstep]
      exact ih acc

theorem typeFor_ne_nil (c : Str) : typeFor c ≠ [] := by
  unfold typeFor
  repeat' split
  all_goals decide

/-! Claim theorems. -/

/-- C4: an empty or whitespace-only corpus makes `analyzeForAirdrops`
return the fixed empty-analysis constant (score 0, no opportunity, fixed
no-content messaging), for every credential configuration and every
behaviour of the remote service, i.e. without either strategy having any
influence on the result. -/
theorem analyzeForAirdrops_empty_contract (hasApiKey : Bool)
    (remote : RemoteOutcome) (fullText : Str)
    (h : (jsTrim fullText).length = 0) :
    analyzeForAirdrops hasApiKey remote fullText =
      analysisToJS createEmptyAnalysis ∧
    createEmptyAnalysis.airdrop_potential = 0 ∧
    createEmptyAnalysis.has_airdrop_opportunity = false := by
  refine ⟨?_, rfl, rfl⟩
  simp [analyzeForAirdrops, h]

/-- Witness for C4 at the whitespace-only corpus of two blanks, with a
credential configured and a well-formed remote response available. -/
theorem analyzeForAirdrops_empty_contract_witness :
    (jsTrim ("  ".toList)).length = 0 ∧
    analyzeForAirdrops true (.responded (some (.obj []))) ("  ".toList) =
      analysisToJS createEmptyAnalysis :=
  ⟨by decide,
   (analyzeForAirdrops_empty_contract true (.responded (some (.obj [])))
     ("  ".toList) (by decide)).1⟩

/-- C8: the local strategy's score always lies in `[0, 10]`, and the
opportunity flag holds exactly when the score is at least 4. -/
theorem local_score_bounds_and_threshold (fullText : Str) :
    0 ≤ (localAirdropAnalysis fullText).airdrop_potential ∧
    (localAirdropAnalysis fullText).airdrop_potential ≤ 10 ∧
    ((localAirdropAnalysis fullText).has_airdrop_opportunity = true ↔
      4 ≤ (localAirdropAnalysis fullText).airdrop_potential) := by
  have hpot : (localAirdropAnalysis fullText).airdrop_potential =
      clampedPotential (lower fullText) := rfl
  have hop : (localAirdropAnalysis fullText).has_airdrop_opportunity =
      decide (4 ≤ clampedPotential (lower fullText)) := rfl
  rw [hpot, hop]
  exact ⟨Nat.zero_le _, Nat.min_le_left _ _, by simp⟩

/-- C9: the category reported by the local strategy is the last category
in iteration order having at least one keyword match (formatted for
display), `'General'` when none matches; the opportunity type is the fixed
lookup of that same last-matched raw category name, which yields
`'Early Access'` for categories without a specific mapping, and
`'General Information'` when no category matched at all. -/
theorem local_category_last_match_wins (fullText : Str) :
    (localAirdropAnalysis fullText).project_category =
      (match selectedCategorySpec fullText with
       | none => "General".toList
       | some ck => formatCategory ck.1) ∧
    (localAirdropAnalysis fullText).opportunity_type =
      (match selectedCategorySpec fullText with
       | none => "General Information".toList
       | some ck => typeFor ck.1) := by
  have hsel := foldl_catStep_selection (lower fullText) categoryList
    ⟨(airdropMatchesOf (lower fullText)).length * 3, "General".toList, []⟩
  have hcat : (localAirdropAnalysis fullText).project_category =
      (runCategories (lower fullText)
        ((airdropMatchesOf (lower fullText)).length * 3)).detectedCategory :=
    rfl
  have hop : (localAirdropAnalysis fullText).opportunity_type =
      (if (runCategories (lower fullText)
            ((airdropMatchesOf (lower fullText)).length * 3)).opportunityType.isEmpty
       then "General Information".toList
       else (runCategories (lower fullText)
            ((airdropMatchesOf (lower fullText)).length * 3)).opportunityType) :=
    rfl
  rw [hcat, hop]
  unfold runCategories
  unfold selectedCategorySpec
  rcases hfind : categoryList.reverse.find?
      (fun ck => decide (0 < matchCount (lower fullText) ck.2)) with _ | ck
  · rw [hfind] at hsel
    rw [hfind]
    simp only [] at hsel
    exact ⟨hsel.1, by rw [hsel.2]; rfl⟩
  · rw [hfind] at hsel
    rw [hfind]
    simp only [] at hsel
    refine ⟨hsel.1, ?_⟩
    rw [hsel.2]
    have hne := typeFor_ne_nil ck.1
    simp [List.isEmpty_iff, hne]

/-- C6 counterexample: on a post whose text carries surrounding
whitespace, `getMergedText` returns the text as-is, while the claimed
trimmed concatenation differs — the merge operation does not trim (the
trim happens later, in `scrapeTweets`, only on the copy handed to the
analyzer). -/
theorem getMergedText_not_trimmed :
    getMergedText
        [{ url := [], user := none, tweet := some ⟨" a ".toList, []⟩,
           error := none, scrapedAt := [] }] = " a ".toList ∧
    mergedTextSpec
        [{ url := [], user := none, tweet := some ⟨" a ".toList, []⟩,
           error := none, scrapedAt := [] }] = "a".toList ∧
    getMergedText
        [{ url := [], user := none, tweet := some ⟨" a ".toList, []⟩,
           error := none, scrapedAt := [] }] ≠
      mergedTextSpec
        [{ url := [], user := none, tweet := some ⟨" a ".toList, []⟩,
           error := none, scrapedAt := [] }] := by
  refine ⟨rfl, rfl, ?_⟩
  decide

/-- C6 as amended: `getMergedText` is exactly the blank-line-joined
concatenation, without trimming, of the text fields of the posts carrying
a tweet body with non-empty text, in input order (the `filterMap`
formulation makes the order preservation and the filter criterion
explicit); being a pure function of the post list, re-running it yields
the same corpus. -/
theorem getMergedText_join_of_usable (posts : List Post) :
    getMergedText posts =
      List.intercalate ("\n\n".toList)
        (posts.filterMap (fun p =>
          match p.tweet with
          | none => none
          | some tb => if tb.text.isEmpty then none else some tb.text)) := by
  unfold getMergedText
  congr 1
  induction posts with
  | nil => rfl
  | cons p ps ih =>
    rcases hpt : p.tweet with _ | tb
    · simp [List.filter_cons, List.filterMap_cons, usableText, hpt, ih]
    · by_cases hemp : tb.text.isEmpty
      all_goals
        simp only [List.isEmpty_iff, List.isEmpty_eq_true] at hemp
      · simp [List.filter_cons, List.filterMap_cons, usableText, hpt, hemp,
          List.isEmpty_iff, ih]
      · simp [List.filter_cons, List.filterMap_cons, usableText, hpt, hemp,
          List.isEmpty_iff, ih]

/-- Mention matches and hashtag matches computed in two passes coincide
with the two components of the single scan `scanEntities`. -/
theorem findMatches_eq_scanEntities :
    ∀ t : Str, findMatches '@' t = (scanEntities t).1 ∧
      findMatches '#' t = (scanEntities t).2 := by
  intro t
  induction t with
  | nil => exact ⟨rfl, rfl⟩
  | cons c rest ih =>
    obtain ⟨ih1, ih2⟩ := ih
    by_cases ha : c = '@' <;> by_cases hh : c = '#' <;>
      by_cases hr : (rest.takeWhile isWordChar).isEmpty <;>
      simp_all [findMatches, scanEntities]

/-- C7 counterexample: on a corpus where a hashtag precedes a mention the
code returns the mention first (`extractProjectNames` concatenates all
regex matches for `@` before all matches for `#`), not the tokens in
document order as claimed. -/
theorem extractProjectNames_not_document_order :
    extractProjectNames ("#aaa @bbb".toList) =
      ["bbb".toList, "aaa".toList] ∧
    entitiesDocOrder ("#aaa @bbb".toList) =
      ["aaa".toList, "bbb".toList] ∧
    extractProjectNames ("#aaa @bbb".toList) ≠
      entitiesDocOrder ("#aaa @bbb".toList) := by
  refine ⟨rfl, rfl, ?_⟩
  decide

/-- C7 as amended: `projects_mentioned` consists of the `@`-mention
tokens in document order followed by the `#`-hashtag tokens in document
order (not the two kinds interleaved by position), sigil stripped,
filtered to length greater than 2, truncated to the first five of that
mentions-first sequence; in particular the result never exceeds five
entries. -/
theorem extractProjectNames_mentions_first (text : Str) :
    extractProjectNames text =
      ((((scanEntities text).1 ++ (scanEntities text).2).map
          (fun item => item.drop 1)).filter
        (fun item => 2 < item.length)).take 5 ∧
    (extractProjectNames text).length ≤ 5 := by
  have h := findMatches_eq_scanEntities text
  constructor
  · unfold extractProjectNames
    rw [h.1, h.2]
  · unfold extractProjectNames
    exact List.length_take_le 5 _

/-- C3: for a non-empty URL list the batch never throws, returns exactly
one entry per URL in input order (entry `i` carries URL `i`), and for each
index the entry carries the extracted tweet with `error` absent when
extraction succeeded, or the error message with no tweet when extraction
failed — so no per-URL failure aborts the batch. -/
theorem scrapeMultipleTweets_isolates_failures
    (fetch : Str → FetchOutcome) (urls : List Str) (h : urls ≠ []) :
    ∃ posts : List Post,
      scrapeMultipleTweets fetch urls = .ok posts ∧
      posts.length = urls.length ∧
      ∀ i (hi : i < posts.length) (hu : i < urls.length),
        (posts.get ⟨i, hi⟩).url = urls.get ⟨i, hu⟩ ∧
        (∀ u tw a, fetch (urls.get ⟨i, hu⟩) = .ok u tw a →
          (posts.get ⟨i, hi⟩).error = none ∧
          (posts.get ⟨i, hi⟩).tweet = some tw) ∧
        (∀ m a, fetch (urls.get ⟨i, hu⟩) = .fail m a →
          (posts.get ⟨i, hi⟩).error = some m ∧
          (posts.get ⟨i, hi⟩).tweet = none) := by
  refine ⟨urls.map (fun u => mkPost u (fetch u)), ?_, by simp, ?_⟩
  · simp [scrapeMultipleTweets, h]
  · intro i hi hu
    have hget : (urls.map (fun u => mkPost u (fetch u))).get ⟨i, hi⟩ =
        mkPost (urls.get ⟨i, hu⟩) (fetch (urls.get ⟨i, hu⟩)) := by
      simp [List.get_eq_getElem]
    rw [hget]
    refine ⟨?_, ?_, ?_⟩
    · rcases fetch (urls.get ⟨i, hu⟩) with _ | _ <;> rfl
    · intro u tw a heq
      rw [heq]
      exact ⟨rfl, rfl⟩
    · intro m a heq
      rw [heq]
      exact ⟨rfl, rfl⟩

/-- Witness for C3 on a concrete three-URL batch whose middle URL fails. -/
theorem scrapeMultipleTweets_isolates_failures_witness :
    (["a".toList, "b".toList, "c".toList] : List Str) ≠ [] ∧
    (∃ posts : List Post,
      scrapeMultipleTweets fetchW ["a".toList, "b".toList, "c".toList] =
        .ok posts ∧
      posts.length = (["a".toList, "b".toList, "c".toList] : List Str).length ∧
      ∀ i (hi : i < posts.length)
        (hu : i < (["a".toList, "b".toList, "c".toList] : List Str).length),
        (posts.get ⟨i, hi⟩).url =
          (["a".toList, "b".toList, "c".toList] : List Str).get ⟨i, hu⟩ ∧
        (∀ u tw a, fetchW ((["a".toList, "b".toList, "c".toList] :
            List Str).get ⟨i, hu⟩) = .ok u tw a →
          (posts.get ⟨i, hi⟩).error = none ∧
          (posts.get ⟨i, hi⟩).tweet = some tw) ∧
        (∀ m a, fetchW ((["a".toList, "b".toList, "c".toList] :
            List Str).get ⟨i, hu⟩) = .fail m a →
          (posts.get ⟨i, hi⟩).error = some m ∧
          (posts.get ⟨i, hi⟩).tweet = none)) :=
  ⟨by decide,
   scrapeMultipleTweets_isolates_failures fetchW
     ["a".toList, "b".toList, "c".toList] (by decide)⟩

/-- C5 counterexample: with a healthy browser but an empty URL list,
`scrapeTweets` takes the catch path — `success` is `false` although the
browser session was created, and the returned object carries neither
`totalPosts` nor `analysis` (nor a corpus), only the error message of the
`scrapeMultipleTweets` throw, refuting both halves of the claim. -/
theorem scrapeTweets_catch_path_envelope :
    (scrapeTweets (.ok ()) fetchW false (.responded none) []).success =
      false ∧
    (scrapeTweets (.ok ()) fetchW false (.responded none) []).totalPosts =
      none ∧
    (scrapeTweets (.ok ()) fetchW false (.responded none) []).analysis =
      none ∧
    (scrapeTweets (.ok ()) fetchW false (.responded none) []).fullText =
      none ∧
    (scrapeTweets (.ok ()) fetchW false (.responded none) []).error =
      some ("URLs must be a non-empty array".toList) :=
  ⟨rfl, rfl, rfl, rfl, rfl⟩

/-- C5 as amended: `scrapeTweets` returns the
`{fullText, success: true, totalPosts, analysis}` envelope exactly when
the browser session was created and the URL list is non-empty; on the
catch path (browser failure, or the throw on an empty URL list) it
returns `{posts: [], mergedText: '', success: false, error}`, which
carries an error message but no `totalPosts`, no `analysis` and no
corpus. -/
theorem scrapeTweets_envelope (browserInit : Except Str Unit)
    (fetch : Str → FetchOutcome) (hasApiKey : Bool) (remote : RemoteOutcome)
    (urls : List Str) :
    ((scrapeTweets browserInit fetch hasApiKey remote urls).success = true ↔
      (browserInit = .ok () ∧ urls ≠ [])) ∧
    ((scrapeTweets browserInit fetch hasApiKey remote urls).success = true →
      ((scrapeTweets browserInit fetch hasApiKey remote urls).fullText).isSome
          = true ∧
      (scrapeTweets browserInit fetch hasApiKey remote urls).totalPosts =
        some urls.length ∧
      ((scrapeTweets browserInit fetch hasApiKey remote urls).analysis).isSome
          = true ∧
      (scrapeTweets browserInit fetch hasApiKey remote urls).error = none) ∧
    ((scrapeTweets browserInit fetch hasApiKey remote urls).success = false →
      ((scrapeTweets browserInit fetch hasApiKey remote urls).error).isSome
          = true ∧
      (scrapeTweets browserInit fetch hasApiKey remote urls).totalPosts =
        none ∧
      (scrapeTweets browserInit fetch hasApiKey remote urls).analysis =
        none ∧
      (scrapeTweets browserInit fetch hasApiKey remote urls).fullText =
        none) := by
  rcases browserInit with e | u
  · simp [scrapeTweets]
  · rcases urls with _ | ⟨a, as⟩
    · simp [scrapeTweets, scrapeMultipleTweets]
    · simp [scrapeTweets, scrapeMultipleTweets]

/-- Witness for C5 on a concrete successful one-URL batch. -/
theorem scrapeTweets_envelope_witness :
    (scrapeTweets (.ok ()) fetchW false (.responded none)
        ["a".toList]).success = true ∧
    (scrapeTweets (.ok ()) fetchW false (.responded none)
        ["a".toList]).totalPosts = some 1 := by
  have h := scrapeTweets_envelope (.ok ()) fetchW false (.responded none)
    ["a".toList]
  have hs : (scrapeTweets (.ok ()) fetchW false (.responded none)
      ["a".toList]).success = true := rfl
  exact ⟨hs, (h.2.1 hs).2.1⟩

/-- The pre-clamp score decomposes as 3 per airdrop-keyword match, 2 per
category-keyword match (summed over all twelve categories), and 1 per
action-keyword match. -/
theorem preclampPotential_decomposition (s : Str) :
    preclampPotential s = (airdropMatchesOf s).length * 3 +
      2 * (categoryList.map (fun ck => matchCount s ck.2)).sum +
      (actionMatchesOf s).length := by
  unfold preclampPotential runCategories
  rw [foldl_catStep_potential]

/-- The category loop only looks at the text through `includes` applied to
its keywords: two texts agreeing on those agree on the loop's result. -/
theorem foldl_catStep_text_congr (tx₁ tx₂ : Str) :
    ∀ (l : List (Str × List Str)) (acc : CatState),
      (∀ ck ∈ l, ∀ k ∈ ck.2, includes tx₁ k = includes tx₂ k) →
      l.foldl (catStep tx₁) acc = l.foldl (catStep tx₂) acc := by
  intro l
  induction l with
  | nil => intro acc _; rfl
  | cons ck l ih =>
    intro acc hkk
    have hfeq : ck.2.filter (fun k => includes tx₁ k) =
        ck.2.filter (fun k => includes tx₂ k) :=
      List.filter_congr (fun k hkm => hkk ck (List.mem_cons_self ck l) k hkm)
    have hstep : catStep tx₁ acc ck = catStep tx₂ acc ck := by
      unfold catStep
      simp only [hfeq]
    rw [List.foldl_cons, List.foldl_cons, hstep]
    exact ih _ (fun ck2 h2 => hkk ck2 (List.mem_cons_of_mem ck h2))

/-- C1 counterexample: on the non-empty corpus `hello`, a remote body that
parses to the JSON object with single key `foo` — which does not match the
canonical key set — is returned to the caller verbatim by the analyzer
instead of triggering the local fallback: `JSON.parse` success is the only
validation the code performs. -/
theorem analyzeForAirdrops_returns_unvalidated_remote :
    analyzeForAirdrops true
        (.responded (some (.obj [("foo".toList, .num 1)])))
        ("hello".toList) =
      .obj [("foo".toList, .num 1)] ∧
    jsKeys (.obj [("foo".toList, .num 1)]) ≠ some canonicalKeys ∧
    analyzeForAirdrops true
        (.responded (some (.obj [("foo".toList, .num 1)])))
        ("hello".toList) ≠
      analysisToJS (localAirdropAnalysis ("hello".toList)) := by
  refine ⟨rfl, by decide, ?_⟩
  intro hcontra
  have h1 : (JSValue.obj [("foo".toList, JSValue.num 1)]) =
      analysisToJS (localAirdropAnalysis ("hello".toList)) := hcontra
  have h2 := congrArg jsKeys h1
  have h3 : jsKeys (analysisToJS (localAirdropAnalysis ("hello".toList))) =
      some canonicalKeys := rfl
  rw [h3] at h2
  exact absurd h2 (by decide)

/-- C1 as amended: for a non-empty corpus with a credential configured,
the fallback to the local strategy triggers exactly when the remote body
is not parseable as JSON at all — the analyzer then returns precisely the
local strategy's result on the same corpus, carrying exactly the canonical
schema's keys, and no error reaches the caller; a body that parses to any
JSON value is returned as-is, without any check of its key set. -/
theorem analyzeForAirdrops_parse_failure_falls_back (fullText : Str)
    (h : (jsTrim fullText).length ≠ 0) :
    analyzeForAirdrops true (.responded none) fullText =
      analysisToJS (localAirdropAnalysis fullText) ∧
    jsKeys (analyzeForAirdrops true (.responded none) fullText) =
      some canonicalKeys ∧
    (∀ v : JSValue,
      analyzeForAirdrops true (.responded (some v)) fullText = v) := by
  have heq : analyzeForAirdrops true (.responded none) fullText =
      analysisToJS (localAirdropAnalysis fullText) := by
    simp [analyzeForAirdrops, h, aiAirdropAnalysis]
  refine ⟨heq, by rw [heq]; rfl, ?_⟩
  intro v
  simp [analyzeForAirdrops, h, aiAirdropAnalysis]

/-- Witness for C1 at the concrete corpus `hello` and an unparseable
remote body. -/
theorem analyzeForAirdrops_parse_failure_falls_back_witness :
    (jsTrim ("hello".toList)).length ≠ 0 ∧
    analyzeForAirdrops true (.responded none) ("hello".toList) =
      analysisToJS (localAirdropAnalysis ("hello".toList)) :=
  ⟨by decide,
   (analyzeForAirdrops_parse_failure_falls_back ("hello".toList)
     (by decide)).1⟩

/-- C2 counterexample: for `T = 'airdrop'`, appending `' airdrop'` gains
nothing — every keyword of `T + ' airdrop'` already matched in `T`
(matching counts distinct keywords, not occurrences), so both scores are
8: the claimed inequality fails although the score of `T′` is 8, not the
clamp value 10. -/
theorem append_airdrop_gain_fails_below_clamp :
    ¬ ((localAirdropAnalysis ("airdrop".toList)).airdrop_potential + 3 ≤
        (localAirdropAnalysis
          ("airdrop".toList ++ " airdrop".toList)).airdrop_potential ∨
       (localAirdropAnalysis
          ("airdrop".toList ++ " airdrop".toList)).airdrop_potential = 10) := by
  decide

/-- C2 as amended: for every text `T` whose lower-casing does not already
contain the keyword `airdrop`, appending `' airdrop'` raises the local
score by at least 3, except that the sum may be truncated by the clamp,
in which case the new score is exactly 10; when `T` already contains
`airdrop`, the appended copy is an additional occurrence of
already-matched keywords and need not raise the score at all. -/
theorem append_airdrop_gains_three (t : Str)
    (h : includes (lower t) ("airdrop".toList) = false) :
    (localAirdropAnalysis t).airdrop_potential + 3 ≤
      (localAirdropAnalysis (t ++ " airdrop".toList)).airdrop_potential ∨
    (localAirdropAnalysis (t ++ " airdrop".toList)).airdrop_potential
      = 10 := by
  have hfield : ∀ s : Str, (localAirdropAnalysis s).airdrop_potential =
      clampedPotential (lower s) := fun s => rfl
  have htx : lower (t ++ " airdrop".toList) =
      lower t ++ " airdrop".toList := by
    rw [lower_append]
    rfl
  have hmono : ∀ k : Str, includes (lower t) k = true →
      includes (lower t ++ " airdrop".toList) k = true :=
    fun k hk => includes_of_append_right (" airdrop".toList) hk
  have hair : includes (lower t ++ " airdrop".toList)
      ("airdrop".toList) = true := by
    rw [includes_iff]
    exact infix_of_append_left (lower t) (by decide)
  have hAcount : (airdropMatchesOf (lower t)).length + 1 ≤
      (airdropMatchesOf (lower t ++ " airdrop".toList)).length := by
    unfold airdropMatchesOf
    exact length_filter_succ_le _ _ airdropKeywords
      (fun k _ hk => hmono k hk) ("airdrop".toList) (by decide) h hair
  have hsum : (categoryList.map
        (fun ck => matchCount (lower t) ck.2)).sum ≤
      (categoryList.map
        (fun ck => matchCount (lower t ++ " airdrop".toList) ck.2)).sum := by
    refine List.sum_le_sum (fun ck _ => ?_)
    unfold matchCount
    exact length_filter_le_of_imp _ _ ck.2 (fun k _ hk => hmono k hk)
  have hAct : (actionMatchesOf (lower t)).length ≤
      (actionMatchesOf (lower t ++ " airdrop".toList)).length := by
    unfold actionMatchesOf
    exact length_filter_le_of_imp _ _ actionKeywords
      (fun k _ hk => hmono k hk)
  have hkey : preclampPotential (lower t) + 3 ≤
      preclampPotential (lower t ++ " airdrop".toList) := by
    rw [preclampPotential_decomposition, preclampPotential_decomposition]
    omega
  rw [hfield t, hfield (t ++ " airdrop".toList), htx]
  unfold clampedPotential
  have h1 : min 10 (preclampPotential (lower t)) ≤
      preclampPotential (lower t) := Nat.min_le_right _ _
  rcases Nat.le_total 10
      (preclampPotential (lower t ++ " airdrop".toList)) with h2 | h2
  · right
    exact Nat.min_eq_left h2
  · left
    rw [Nat.min_eq_right h2]
    omega

/-- Witness for C2 at the concrete text `xyz`, which contains no keyword
at all: the score rises from 0 to 8. -/
theorem append_airdrop_gains_three_witness :
    includes (lower ("xyz".toList)) ("airdrop".toList) = false ∧
    ((localAirdropAnalysis ("xyz".toList)).airdrop_potential + 3 ≤
      (localAirdropAnalysis
        ("xyz".toList ++ " airdrop".toList)).airdrop_potential ∨
     (localAirdropAnalysis
        ("xyz".toList ++ " airdrop".toList)).airdrop_potential = 10) :=
  ⟨by decide, append_airdrop_gains_three ("xyz".toList) (by decide)⟩

/-- C10: keyword matching is raw substring containment on the lower-cased
corpus without word boundaries, counting each distinct keyword once:
(1) any corpus containing `again` matches the AI/ML keyword `ai`,
contributing 2 to the pre-clamp score; (2) any corpus containing
`airdrop` matches both distinct indicators `airdrop` and `drop`,
contributing at least 6 rather than 3; (3) the score depends only on
which keywords match, so additional occurrences of already-matched
keywords contribute nothing. -/
theorem keyword_matching_substring_semantics :
    (∀ t : Str, ("again".toList <:+: t) →
      1 ≤ matchCount (lower t) aiMlKeywords ∧
      2 ≤ preclampPotential (lower t)) ∧
    (∀ t : Str, ("airdrop".toList <:+: t) →
      2 ≤ (airdropMatchesOf (lower t)).length ∧
      6 ≤ preclampPotential (lower t)) ∧
    (∀ t₁ t₂ : Str,
      (∀ k ∈ allScoredKeywords,
        includes (lower t₁) k = includes (lower t₂) k) →
      preclampPotential (lower t₁) = preclampPotential (lower t₂) ∧
      (localAirdropAnalysis t₁).airdrop_potential =
        (localAirdropAnalysis t₂).airdrop_potential) := by
  refine ⟨?_, ?_, ?_⟩
  · intro t h
    have hag : ("again".toList : Str) <:+: lower t := infix_map_lower h
    have hai : ("ai".toList : Str) <:+: lower t :=
      (show ("ai".toList : Str) <:+: ("again".toList : Str) by decide).trans
        hag
    have hinc : includes (lower t) ("ai".toList) = true :=
      (includes_iff _ _).mpr hai
    have hcount : 1 ≤ matchCount (lower t) aiMlKeywords :=
      one_le_length_filter _ aiMlKeywords ("ai".toList) (by decide) hinc
    refine ⟨hcount, ?_⟩
    have hmem : matchCount (lower t) aiMlKeywords ∈
        categoryList.map (fun ck => matchCount (lower t) ck.2) :=
      List.mem_map_of_mem (fun ck => matchCount (lower t) ck.2)
        (show (("ai_ml".toList, aiMlKeywords) : Str × List Str) ∈
          categoryList by decide)
    have hsum := List.single_le_sum (l := categoryList.map
        (fun ck => matchCount (lower t) ck.2))
      (fun x _ => Nat.zero_le x) _ hmem
    rw [preclampPotential_decomposition]
    omega
  · intro t h
    have hairT : ("airdrop".toList : Str) <:+: lower t := infix_map_lower h
    have hdropT : ("drop".toList : Str) <:+: lower t :=
      (show ("drop".toList : Str) <:+: ("airdrop".toList : Str)
        by decide).trans hairT
    have hinc1 : includes (lower t) ("airdrop".toList) = true :=
      (includes_iff _ _).mpr hairT
    have hinc2 : includes (lower t) ("drop".toList) = true :=
      (includes_iff _ _).mpr hdropT
    have hcount : 2 ≤ (airdropMatchesOf (lower t)).length := by
      have hq : (airdropKeywords.filter (fun k =>
          decide (k = "airdrop".toList ∨ k = "drop".toList))).length = 2 :=
        by decide
      have hle := length_filter_le_of_imp
        (fun k => decide (k = "airdrop".toList ∨ k = "drop".toList))
        (fun k => includes (lower t) k) airdropKeywords
        (fun k _ hk => by
          rcases of_decide_eq_true hk with rfl | rfl
          · exact hinc1
          · exact hinc2)
      rw [hq] at hle
      exact hle
    refine ⟨hcount, ?_⟩
    rw [preclampPotential_decomposition]
    exact le_trans (Nat.mul_le_mul_right 3 hcount)
      (le_trans (Nat.le_add_right _ _) (Nat.le_add_right _ _))
  · intro t₁ t₂ hk
    have hfa : airdropMatchesOf (lower t₁) = airdropMatchesOf (lower t₂) := by
      unfold airdropMatchesOf
      refine List.filter_congr (fun k hkm => ?_)
      exact hk k (by simp [allScoredKeywords, hkm])
    have hfact : actionMatchesOf (lower t₁) = actionMatchesOf (lower t₂) := by
      unfold actionMatchesOf
      refine List.filter_congr (fun k hkm => ?_)
      exact hk k (by simp [allScoredKeywords, hkm])
    have hfold : ∀ initPot : Nat,
        runCategories (lower t₁) initPot = runCategories (lower t₂) initPot := by
      intro initPot
      unfold runCategories
      refine foldl_catStep_text_congr (lower t₁) (lower t₂) categoryList _
        (fun ck hck k hkm => ?_)
      refine hk k ?_
      have hflat : k ∈ (categoryList.map Prod.snd).flatten :=
        List.mem_flatten.mpr ⟨ck.2, List.mem_map_of_mem Prod.snd hck, hkm⟩
      simp [allScoredKeywords, hflat]
    have hpre : preclampPotential (lower t₁) = preclampPotential (lower t₂) := by
      unfold preclampPotential
      rw [hfa, hfact, hfold]
    refine ⟨hpre, ?_⟩
    have hf1 : (localAirdropAnalysis t₁).airdrop_potential =
        clampedPotential (lower t₁) := rfl
    have hf2 : (localAirdropAnalysis t₂).airdrop_potential =
        clampedPotential (lower t₂) := rfl
    rw [hf1, hf2]
    unfold clampedPotential
    rw [hpre]

set_option maxRecDepth 8000 in
/-- Witness for C10 at the concrete corpora `again`, `airdrop` and
`airdrop airdrop`. -/
theorem keyword_matching_substring_semantics_witness :
    1 ≤ matchCount (lower ("again".toList)) aiMlKeywords ∧
    6 ≤ preclampPotential (lower ("airdrop".toList)) ∧
    preclampPotential (lower ("airdrop airdrop".toList)) =
      preclampPotential (lower ("airdrop".toList)) := by
  have h := keyword_matching_substring_semantics
  exact ⟨(h.1 ("again".toList) (by decide)).1,
    (h.2.1 ("airdrop".toList) (by decide)).2,
    (h.2.2 ("airdrop airdrop".toList) ("airdrop".toList) (by decide)).1⟩
